import Mathlib

/-!
Shallow embedding of the Energy_Smart-Contract Hyperledger Fabric chaincode
(token ledger with escrow holds, mint/burn approval workflow, sealed-bid
energy auction).

Modelling conventions:
* The world state is a record of association maps, one per key family
  (plain principal-keyed balance records, the total-supply singleton, the
  composite `hold` and `allowance` keys, the MintBurn order-table singleton,
  and auction records).  The families use disjoint key spaces on the ledger
  (composite keys are null-prefixed), so a partitioned state is faithful.
* Go `int` is modelled as unbounded `Int`; the stored decimal strings
  round-trip through `Itoa`/`Atoi`, so records carry `Int` directly.
* Each chaincode invocation is all-or-nothing: a function returns
  `Except String (WorldState × α)`, and an error discards every write of the
  invocation (the platform invalidates the transaction), which `commit`
  makes explicit.
* Timestamps are whole minutes (`Int`); `time.Since(start).Minutes()` at the
  current invocation becomes `ctx.now - Time_started`.
* Event emission and endorsement-policy updates go to external collaborators
  and carry no ledger state, so they are omitted.
-/

/-- Read a record from an association map (the stub's `GetState`;
`none` models a nil byte slice). -/
def getKey {β : Type} (k : String) : List (String × β) → Option β
  | [] => none
  | (k', v) :: rest => if k' = k then some v else getKey k rest

/-- Write a record to an association map (the stub's `PutState`),
replacing any existing record under the same key. -/
def setKey {β : Type} (k : String) (v : β) : List (String × β) → List (String × β)
  | [] => [(k, v)]
  | (k', v') :: rest => if k' = k then (k, v) :: rest else (k', v') :: setKey k v rest

/-- Delete a record from an association map (the stub's `DelState`,
and Go's `delete` on a decoded map). -/
def delKey {β : Type} (k : String) : List (String × β) → List (String × β)
  | [] => []
  | (k', v') :: rest => if k' = k then delKey k rest else (k', v') :: delKey k rest

/-- Sum of all stored values of an association map (used to state
balance-sum conservation). -/
def sumValues (l : List (String × Int)) : Int :=
  (l.map Prod.snd).sum

/-- Composite keys as built by the stub: a null byte, the object type,
then each attribute, each terminated by a null byte. -/
def createCompositeKey (objectType : String) (attributes : List String) : String :=
  attributes.foldl (fun acc a => acc ++ a ++ "\x00") ("\x00" ++ objectType ++ "\x00")

def holdKeyOf (client : String) : String :=
  createCompositeKey "hold" [client]

def allowanceKeyOf (owner spender : String) : String :=
  createCompositeKey "allowance" [owner, spender]

def bidKeyType : String := "bid"

def stateOrder : String := "Ordered"
def stateApproved : String := "Approved"
def stateRejected : String := "Rejected"

/-- One mint/burn order entry (`St_am` in the source). -/
structure St_am where
  MintBurn : String
  Amount : Int
  State : String
deriving DecidableEq

/-- A revealed bid. -/
structure FullBid where
  objectType : String
  Price : Int
  Org : String
  Bidder : String
deriving DecidableEq

/-- A private (hashed) bid. -/
structure BidHash where
  Org : String
  Hash : String
deriving DecidableEq

/-- An auction record (`Auction` in the source; `Type` becomes `objectType`,
matching its JSON tag, because `Type` is reserved in Lean). -/
structure Auction where
  objectType : String
  ItemSold : String
  Amount : Int
  PricePerKWh : Int
  Time_started : Int
  Time_remaining : Int
  Seller : String
  Orgs : List String
  PrivateBids : List (String × BidHash)
  RevealedBids : List (String × FullBid)
  Winner : String
  Price : Int
  Status : String
deriving DecidableEq

/-- The world state, partitioned by key family. -/
structure WorldState where
  balances : List (String × Int)
  totalSupply : Option Int
  holds : List (String × Int)
  allowances : List (String × Int)
  orders : Option (List (String × St_am))
  auctions : List (String × Auction)
deriving DecidableEq

/-- The per-invocation transaction context: caller identity, caller's MSP,
and the invocation timestamp in minutes. -/
structure TxCtx where
  clientID : String
  mspID : String
  now : Int
deriving DecidableEq

/-- All-or-nothing commit of one invocation: an error invalidates the
transaction and keeps the pre-state. -/
def commit {α : Type} (s : WorldState) (r : Except String (WorldState × α)) : WorldState :=
  match r with
  | .ok (s', _) => s'
  | .error _ => s

/-- Whether an invocation succeeded. -/
def execOk {α : Type} : Except String (WorldState × α) → Bool
  | .ok _ => true
  | .error _ => false

/-- `ClientAccountBalance`: the caller's own balance record, required to exist. -/
def SmartContract.ClientAccountBalance (ctx : TxCtx) (s : WorldState) :
    Except String (WorldState × Int) :=
  match getKey ctx.clientID s.balances with
  | none => .error "the account does not exist"
  | some balance => .ok (s, balance)

/-- `Mint` (package-level): requires a positive amount; adds it to the
caller's balance (created at 0 if absent) and to the total supply
(initialized at 0 if absent). -/
def Mint (ctx : TxCtx) (amount : Int) (s : WorldState) :
    Except String (WorldState × Unit) :=
  if amount ≤ 0 then .error "mint amount must be a positive integer"
  else
    let currentBalance := (getKey ctx.clientID s.balances).getD 0
    let s1 : WorldState :=
      { s with balances := setKey ctx.clientID (currentBalance + amount) s.balances }
    let totalSupply := s1.totalSupply.getD 0
    .ok ({ s1 with totalSupply := some (totalSupply + amount) }, ())

/-- `Burn` (package-level): restricted to Org1MSP; requires a positive amount,
an existing balance record and an existing total-supply record; subtracts the
amount from both (no check that the balance stays non-negative). -/
def Burn (ctx : TxCtx) (amount : Int) (s : WorldState) :
    Except String (WorldState × Unit) :=
  if ctx.mspID ≠ "Org1MSP" then .error "client is not authorized to mint new tokens"
  else if amount ≤ 0 then .error "burn amount must be a positive integer"
  else
    match getKey ctx.clientID s.balances with
    | none => .error "the balance does not exist"
    | some currentBalance =>
      let s1 : WorldState :=
        { s with balances := setKey ctx.clientID (currentBalance - amount) s.balances }
      match s1.totalSupply with
      | none => .error "totalSupply does not exist"
      | some t => .ok ({ s1 with totalSupply := some (t - amount) }, ())

/-- `transferHelper`: both balances are read before either is written. -/
def transferHelper (fromID toID : String) (value : Int) (s : WorldState) :
    Except String (WorldState × Unit) :=
  if value < 0 then .error "transfer amount cannot be negative"
  else
    match getKey fromID s.balances with
    | none => .error "client account has no balance"
    | some fromCurrentBalance =>
      if fromCurrentBalance < value then .error "client account has insufficient funds"
      else
        let toCurrentBalance := (getKey toID s.balances).getD 0
        let s1 : WorldState :=
          { s with balances := setKey fromID (fromCurrentBalance - value) s.balances }
        .ok ({ s1 with balances := setKey toID (toCurrentBalance + value) s1.balances }, ())

/-- `Transfer`: transfers from the caller to the recipient. -/
def SmartContract.Transfer (ctx : TxCtx) (recipient : String) (amount : Int)
    (s : WorldState) : Except String (WorldState × Unit) :=
  match transferHelper ctx.clientID recipient amount s with
  | .error e => .error ("failed to transfer: " ++ e)
  | .ok (s1, _) => .ok (s1, ())

/-- `TransferFrom`: checks the (owner, caller) allowance (absent decodes
to 0), delegates to `transferHelper`, then decrements the allowance. -/
def SmartContract.TransferFrom (ctx : TxCtx) (fromID toID : String) (value : Int)
    (s : WorldState) : Except String (WorldState × Unit) :=
  let currentAllowance := (getKey (allowanceKeyOf fromID ctx.clientID) s.allowances).getD 0
  if currentAllowance < value then .error "spender does not have enough allowance for transfer"
  else
    match transferHelper fromID toID value s with
    | .error e => .error ("failed to transfer: " ++ e)
    | .ok (s1, _) =>
      let newAllowances :=
        setKey (allowanceKeyOf fromID ctx.clientID) (currentAllowance - value) s1.allowances
      .ok ({ s1 with allowances := newAllowances }, ())

/-- `CreateHold`: requires a positive amount and an existing balance record;
moves the amount from the active balance into the caller's hold record
(additive if a hold already exists; the balance may go negative). -/
def SmartContract.CreateHold (ctx : TxCtx) (amount : Int) (s : WorldState) :
    Except String (WorldState × Unit) :=
  if amount ≤ 0 then .error "hold amount must be a positive integer"
  else
    match getKey ctx.clientID s.balances with
    | none => .error "the balance does not exist"
    | some currentBalance =>
      let s1 : WorldState :=
        { s with balances := setKey ctx.clientID (currentBalance - amount) s.balances }
      let hold_amount :=
        match getKey (holdKeyOf ctx.clientID) s1.holds with
        | none => amount
        | some h => h + amount
      .ok ({ s1 with holds := setKey (holdKeyOf ctx.clientID) hold_amount s1.holds }, ())

/-- `ExecuteHold` (package-level): credits the caller with `amount`, credits
the holder with the leftover `hold - amount`, then rewrites the hold record
with its pre-execution value. -/
def ExecuteHold (ctx : TxCtx) (holder : String) (amount : Int) (s : WorldState) :
    Except String (WorldState × Unit) :=
  if amount ≤ 0 then .error "hold amount must be a positive integer"
  else
    match getKey (holdKeyOf holder) s.holds with
    | none => .error "failed to get hold amount"
    | some hold_amount =>
      if hold_amount < amount then .error "error with hold amount"
      else
        match getKey ctx.clientID s.balances with
        | none => .error "the balance does not exist"
        | some currentBalance =>
          let s1 : WorldState :=
            { s with balances := setKey ctx.clientID (currentBalance + amount) s.balances }
          match getKey holder s1.balances with
          | none => .error "the balance does not exist"
          | some currentBalance_h =>
            let bal2 := setKey holder (currentBalance_h + hold_amount - amount) s1.balances
            let s2 : WorldState := { s1 with balances := bal2 }
            .ok ({ s2 with holds := setKey (holdKeyOf holder) hold_amount s2.holds }, ())

/-- `ReturnHold`: refunds the holder's entire hold into its active balance
and zeroes the hold record. -/
def SmartContract.ReturnHold (_ctx : TxCtx) (holder : String) (s : WorldState) :
    Except String (WorldState × Unit) :=
  match getKey (holdKeyOf holder) s.holds with
  | none => .error "failed to get hold amount"
  | some hold_amount =>
    match getKey holder s.balances with
    | none => .error "the balance does not exist"
    | some currentBalance =>
      let s1 : WorldState :=
        { s with balances := setKey holder (currentBalance + hold_amount) s.balances }
      .ok ({ s1 with holds := setKey (holdKeyOf holder) 0 s1.holds }, ())

/-- `OrderMint`: requires the caller to have an account; stores a Mint order
in state Ordered for the caller, creating the order table if absent and
overwriting any prior entry otherwise. -/
def SmartContract.OrderMint (ctx : TxCtx) (amount : Int) (s : WorldState) :
    Except String (WorldState × Unit) :=
  match SmartContract.ClientAccountBalance ctx s with
  | .error e => .error ("account does not exist: " ++ e)
  | .ok _ =>
    match s.orders with
    | none =>
      .ok ({ s with orders := some (setKey ctx.clientID ⟨"Mint", amount, stateOrder⟩ []) }, ())
    | some tbl =>
      .ok ({ s with orders := some (setKey ctx.clientID ⟨"Mint", amount, stateOrder⟩ tbl) }, ())

/-- `OrderBurn`: requires the caller to have an account; when the order table
is absent it stores a Burn order, but when the table already exists the entry
written for the caller carries kind "Mint". -/
def SmartContract.OrderBurn (ctx : TxCtx) (amount : Int) (s : WorldState) :
    Except String (WorldState × Unit) :=
  match SmartContract.ClientAccountBalance ctx s with
  | .error e => .error ("account does not exist: " ++ e)
  | .ok _ =>
    match s.orders with
    | none =>
      .ok ({ s with orders := some (setKey ctx.clientID ⟨"Burn", amount, stateOrder⟩ []) }, ())
    | some tbl =>
      .ok ({ s with orders := some (setKey ctx.clientID ⟨"Mint", amount, stateOrder⟩ tbl) }, ())

/-- The zero value a Go map lookup yields for a missing `St_am` entry. -/
def St_am.zero : St_am := ⟨"", 0, ""⟩

/-- `ExecuteMint`: requires an account, a decodable order table, and the
caller's entry to be an Approved Mint order for exactly `amount`; then mints
and deletes the entry. -/
def SmartContract.ExecuteMint (ctx : TxCtx) (amount : Int) (s : WorldState) :
    Except String (WorldState × Unit) :=
  match SmartContract.ClientAccountBalance ctx s with
  | .error e => .error ("account does not exist: " ++ e)
  | .ok _ =>
    match s.orders with
    | none => .error "failed to get json"
    | some tbl =>
      let table := (getKey ctx.clientID tbl).getD St_am.zero
      if table.State ≠ stateApproved ∨ table.Amount ≠ amount ∨ table.MintBurn ≠ "Mint" then
        .error "mint is not approved or amount is different than amount ordered"
      else
        match Mint ctx amount s with
        | .error _ => .error "error minting amount"
        | .ok (s1, _) => .ok ({ s1 with orders := some (delKey ctx.clientID tbl) }, ())

/-- `ExecuteBurn`: requires an account, a decodable order table, and the
caller's entry to be an Approved Burn order for exactly `amount`; then burns
and deletes the entry. -/
def SmartContract.ExecuteBurn (ctx : TxCtx) (amount : Int) (s : WorldState) :
    Except String (WorldState × Unit) :=
  match SmartContract.ClientAccountBalance ctx s with
  | .error e => .error ("account does not exist: " ++ e)
  | .ok _ =>
    match s.orders with
    | none => .error "failed to get json"
    | some tbl =>
      let table := (getKey ctx.clientID tbl).getD St_am.zero
      if table.State ≠ stateApproved ∨ table.Amount ≠ amount ∨ table.MintBurn ≠ "Burn" then
        .error "burn is not approved or amount is different than amount ordered"
      else
        match Burn ctx amount s with
        | .error e => .error e
        | .ok (s1, _) => .ok ({ s1 with orders := some (delKey ctx.clientID tbl) }, ())

/-- `GetMintOrder`: the caller's own order entry, which must be of kind Mint. -/
def SmartContract.GetMintOrder (ctx : TxCtx) (s : WorldState) :
    Except String (WorldState × St_am) :=
  match SmartContract.ClientAccountBalance ctx s with
  | .error e => .error ("account does not exist: " ++ e)
  | .ok _ =>
    match s.orders with
    | none => .error "failed to get json"
    | some tbl =>
      let mo := (getKey ctx.clientID tbl).getD St_am.zero
      if mo.MintBurn ≠ "Mint" then .error "there is no mint order" else .ok (s, mo)

/-- `GetBurnOrder`: the caller's own order entry, which must be of kind Burn. -/
def SmartContract.GetBurnOrder (ctx : TxCtx) (s : WorldState) :
    Except String (WorldState × St_am) :=
  match SmartContract.ClientAccountBalance ctx s with
  | .error e => .error ("account does not exist: " ++ e)
  | .ok _ =>
    match s.orders with
    | none => .error "failed to get json"
    | some tbl =>
      let mo := (getKey ctx.clientID tbl).getD St_am.zero
      if mo.MintBurn ≠ "Burn" then .error "there is no burn order" else .ok (s, mo)

/-- `GetMintOrders`: restricted to Org1MSP; decodes the order table and
removes from the returned map every entry that is not a Mint order in state
Ordered.  No record is written back. -/
def SmartContract.GetMintOrders (ctx : TxCtx) (s : WorldState) :
    Except String (WorldState × List (String × St_am)) :=
  if ctx.mspID ≠ "Org1MSP" then .error "client is not authorized to get mint orders"
  else
    match s.orders with
    | none => .error "there are no Mint Orders"
    | some tbl =>
      .ok (s, tbl.filter (fun kv => kv.2.MintBurn == "Mint" && kv.2.State == stateOrder))

/-- `GetBurnOrders`: restricted to Org1MSP; decodes the order table and
removes from the returned map every entry that is not a Burn order in state
Ordered.  No record is written back. -/
def SmartContract.GetBurnOrders (ctx : TxCtx) (s : WorldState) :
    Except String (WorldState × List (String × St_am)) :=
  if ctx.mspID ≠ "Org1MSP" then .error "client is not authorized to get burn orders"
  else
    match s.orders with
    | none => .error "there are no Burn Orders"
    | some tbl =>
      .ok (s, tbl.filter (fun kv => kv.2.MintBurn == "Burn" && kv.2.State == stateOrder))

/-- Modelled from the spec: the slice-membership helper `contains` used by
bid submission is defined elsewhere in the repository ("adds the bidding
organization to the list of participating organizations if it is not
already" present). -/
def contains (orgs : List String) (org : String) : Bool :=
  orgs.contains org

/-- `CreateAuction`: the caller becomes seller; the price field starts at
amount × pricePerKWh (the reserve), status starts open, and the bid maps
start empty. -/
def SmartContract.CreateAuction (ctx : TxCtx) (auctionID : String)
    (priceperkwh amount time_rem : Int) (s : WorldState) :
    Except String (WorldState × Unit) :=
  let auction : Auction :=
    { objectType := "auction"
      ItemSold := "energy(KWh)"
      Amount := amount
      PricePerKWh := priceperkwh
      Time_started := ctx.now
      Time_remaining := time_rem
      Price := amount * priceperkwh
      Seller := ctx.clientID
      Orgs := [ctx.mspID]
      PrivateBids := []
      RevealedBids := []
      Winner := ""
      Status := "open" }
  .ok ({ s with auctions := setKey auctionID auction s.auctions }, ())

/-- `Bid_Rev`: requires an open, unexpired auction and a caller balance of at
least the bid; records the revealed bid under the composite key built from
the auction identifier alone, extends the organization list if needed, and
places a hold on the caller for the bid amount.  On expiry the best-effort
close/end writes die with the failing transaction, so the branch reduces to
the "time is up" error. -/
def SmartContract.Bid_Rev (ctx : TxCtx) (auctionID : String) (amount : Int)
    (s : WorldState) : Except String (WorldState × Unit) :=
  match getKey auctionID s.auctions with
  | none => .error "Auction not found"
  | some auctionJSON =>
    if auctionJSON.Status ≠ "open" then .error "cannot join closed or ended auction"
    else if auctionJSON.Time_remaining ≤ ctx.now - auctionJSON.Time_started then
      .error "time is up"
    else
      match SmartContract.ClientAccountBalance ctx s with
      | .error _ => .error "cannot get balance"
      | .ok (_, balance) =>
        if balance < amount then .error "balance is less than amount"
        else
          let bidKey := createCompositeKey bidKeyType [auctionID]
          let newBid : FullBid :=
            { objectType := auctionJSON.ItemSold
              Price := amount
              Org := ctx.mspID
              Bidder := ctx.clientID }
          let newOrgs :=
            if contains auctionJSON.Orgs ctx.mspID then auctionJSON.Orgs
            else auctionJSON.Orgs ++ [ctx.mspID]
          let auction1 : Auction :=
            { auctionJSON with
                RevealedBids := setKey bidKey newBid auctionJSON.RevealedBids
                Orgs := newOrgs }
          let s1 : WorldState := { s with auctions := setKey auctionID auction1 s.auctions }
          match SmartContract.CreateHold ctx amount s1 with
          | .error e => .error ("cannot create hold: " ++ e)
          | .ok (s2, _) => .ok (s2, ())

/-- `CloseAuction` (the package-level variant invoked by the auto-expiry
paths): requires the caller to be the seller and the status to be open, then
sets the status to closed. -/
def CloseAuction (ctx : TxCtx) (auctionID : String) (s : WorldState) :
    Except String (WorldState × Unit) :=
  match getKey auctionID s.auctions with
  | none => .error "Auction interest object not found"
  | some auctionJSON =>
    if auctionJSON.Seller ≠ ctx.clientID then .error "auction can only be closed by seller"
    else if auctionJSON.Status ≠ "open" then .error "cannot close auction that is not open"
    else
      .ok ({ s with auctions :=
              setKey auctionID { auctionJSON with Status := "closed" } s.auctions }, ())

/-- The winner-selection loop of `EndAuction`: starting from the stored
winner/price, each bid in iteration order that strictly exceeds the running
price replaces both. -/
def selectWinner (winner0 : String) (price0 : Int) :
    List (String × FullBid) → String × Int
  | [] => (winner0, price0)
  | (_, bid) :: rest =>
    if price0 < bid.Price then selectWinner bid.Bidder bid.Price rest
    else selectWinner winner0 price0 rest

/-- Modelled from the spec: `queryAllBids` (defined elsewhere in the
repository, not under src/) performs the sealed-bid fairness check of the
winning price against the revealed and private bids; its verdict is
abstracted as an arbitrary boolean predicate. -/
abbrev QueryAllBids : Type :=
  Int → List (String × FullBid) → List (String × BidHash) → Bool

/-- `EndAuction` (method): requires the caller to be the seller, a closed
status and at least one revealed bid; runs the winner-selection loop, runs
the fairness check, persists the record with status ended and then deletes
it from the store. -/
def SmartContract.EndAuction (queryAllBids : QueryAllBids) (ctx : TxCtx)
    (auctionID : String) (s : WorldState) : Except String (WorldState × Unit) :=
  match getKey auctionID s.auctions with
  | none => .error "Auction interest object not found"
  | some auctionJSON =>
    if auctionJSON.Seller ≠ ctx.clientID then .error "auction can only be ended by seller"
    else if auctionJSON.Status ≠ "closed" then .error "can only end a closed auction"
    else if auctionJSON.RevealedBids.length = 0 then
      .error "no bids have been revealed, cannot end auction"
    else
      let wp := selectWinner auctionJSON.Winner auctionJSON.Price auctionJSON.RevealedBids
      let auction1 : Auction := { auctionJSON with Winner := wp.1, Price := wp.2 }
      if queryAllBids auction1.Price auction1.RevealedBids auction1.PrivateBids then
        let auction2 : Auction := { auction1 with Status := "ended" }
        let s1 : WorldState := { s with auctions := setKey auctionID auction2 s.auctions }
        .ok ({ s1 with auctions := delKey auctionID s1.auctions }, ())
      else .error "cannot close auction"

/-! ### Association-map laws -/

theorem getKey_setKey_self {β : Type} (k : String) (v : β) (l : List (String × β)) :
    getKey k (setKey k v l) = some v := by
  induction l with
  | nil => simp [getKey, setKey]
  | cons kv rest ih =>
    obtain ⟨k', v'⟩ := kv
    by_cases h : k' = k
    · simp [getKey, setKey, h]
    · simp [getKey, setKey, h, ih]

theorem getKey_setKey_ne {β : Type} {k k' : String} (h : k ≠ k') (v : β)
    (l : List (String × β)) : getKey k (setKey k' v l) = getKey k l := by
  induction l with
  | nil => simp [getKey, setKey, Ne.symm h]
  | cons kv rest ih =>
    obtain ⟨k'', v''⟩ := kv
    by_cases h2 : k'' = k'
    · subst h2
      simp [getKey, setKey, Ne.symm h]
    · simp [getKey, setKey, h2, ih]

theorem getKey_delKey_self {β : Type} (k : String) (l : List (String × β)) :
    getKey k (delKey k l) = none := by
  induction l with
  | nil => simp [getKey, delKey]
  | cons kv rest ih =>
    obtain ⟨k', v'⟩ := kv
    by_cases h : k' = k
    · simp [delKey, h, ih]
    · simp [getKey, delKey, h, ih]

/-! ### Inversion lemmas for successful invocations -/

theorem clientAccountBalance_ok {ctx : TxCtx} {s : WorldState} {p : WorldState × Int}
    (h : SmartContract.ClientAccountBalance ctx s = .ok p) :
    p.1 = s ∧ getKey ctx.clientID s.balances = some p.2 := by
  unfold SmartContract.ClientAccountBalance at h
  cases hg : getKey ctx.clientID s.balances with
  | none => rw [hg] at h; exact absurd h (by simp)
  | some b =>
    rw [hg] at h
    simp only [Except.ok.injEq] at h
    subst h
    exact ⟨rfl, rfl⟩

theorem mint_ok {ctx : TxCtx} {amount : Int} {s s1 : WorldState} {u : Unit}
    (h : Mint ctx amount s = .ok (s1, u)) :
    0 < amount ∧
    s1 = { s with
            balances := setKey ctx.clientID
              ((getKey ctx.clientID s.balances).getD 0 + amount) s.balances
            totalSupply := some (s.totalSupply.getD 0 + amount) } := by
  unfold Mint at h
  by_cases hle : amount ≤ 0
  · rw [if_pos hle] at h; exact absurd h (by simp)
  · rw [if_neg hle] at h
    simp only [Except.ok.injEq, Prod.mk.injEq] at h
    exact ⟨by omega, h.1.symm⟩

theorem burn_ok {ctx : TxCtx} {amount : Int} {s s1 : WorldState} {u : Unit}
    (h : Burn ctx amount s = .ok (s1, u)) :
    ctx.mspID = "Org1MSP" ∧ 0 < amount ∧
    ∃ b, getKey ctx.clientID s.balances = some b ∧
    ∃ t, s.totalSupply = some t ∧
    s1 = { s with
            balances := setKey ctx.clientID (b - amount) s.balances
            totalSupply := some (t - amount) } := by
  unfold Burn at h
  by_cases hm : ctx.mspID ≠ "Org1MSP"
  · rw [if_pos hm] at h; exact absurd h (by simp)
  · rw [if_neg hm] at h
    push_neg at hm
    by_cases hle : amount ≤ 0
    · rw [if_pos hle] at h; exact absurd h (by simp)
    · rw [if_neg hle] at h
      cases hg : getKey ctx.clientID s.balances with
      | none => rw [hg] at h; exact absurd h (by simp)
      | some b =>
        rw [hg] at h
        cases ht : s.totalSupply with
        | none => simp only [ht] at h; exact absurd h (by simp)
        | some t =>
          simp only [ht, Except.ok.injEq, Prod.mk.injEq] at h
          exact ⟨hm, by omega, b, rfl, t, rfl, h.1.symm⟩

theorem transferHelper_ok {fromID toID : String} {value : Int} {s s1 : WorldState}
    {u : Unit} (h : transferHelper fromID toID value s = .ok (s1, u)) :
    0 ≤ value ∧ ∃ b, getKey fromID s.balances = some b ∧ value ≤ b ∧
    s1 = { s with
            balances := setKey toID ((getKey toID s.balances).getD 0 + value)
              (setKey fromID (b - value) s.balances) } := by
  unfold transferHelper at h
  by_cases hneg : value < 0
  · rw [if_pos hneg] at h; exact absurd h (by simp)
  · rw [if_neg hneg] at h
    cases hg : getKey fromID s.balances with
    | none => rw [hg] at h; exact absurd h (by simp)
    | some b =>
      rw [hg] at h
      dsimp only at h
      by_cases hins : b < value
      · rw [if_pos hins] at h; exact absurd h (by simp)
      · rw [if_neg hins] at h
        simp only [Except.ok.injEq, Prod.mk.injEq] at h
        exact ⟨by omega, b, rfl, by omega, h.1.symm⟩

theorem createHold_ok {ctx : TxCtx} {amount : Int} {s s1 : WorldState} {u : Unit}
    (h : SmartContract.CreateHold ctx amount s = .ok (s1, u)) :
    0 < amount ∧ ∃ b, getKey ctx.clientID s.balances = some b ∧
    s1 = { s with
            balances := setKey ctx.clientID (b - amount) s.balances
            holds := setKey (holdKeyOf ctx.clientID)
              (match getKey (holdKeyOf ctx.clientID) s.holds with
               | none => amount
               | some h0 => h0 + amount) s.holds } := by
  unfold SmartContract.CreateHold at h
  by_cases hle : amount ≤ 0
  · rw [if_pos hle] at h; exact absurd h (by simp)
  · rw [if_neg hle] at h
    cases hg : getKey ctx.clientID s.balances with
    | none => rw [hg] at h; exact absurd h (by simp)
    | some b =>
      rw [hg] at h
      simp only [Except.ok.injEq, Prod.mk.injEq] at h
      exact ⟨by omega, b, rfl, h.1.symm⟩

/-! ### Claim C1 -/

def c1State : WorldState := ⟨[("acct1", 5)], some 5, [], [], none, []⟩

def c1Ctx : TxCtx := ⟨"acct1", "Org2MSP", 0⟩

/-- Claim C1 states that every successful Transfer leaves the total-supply
record and the sum of all account balances unchanged.  The code violates
this: a transfer whose recipient equals the sender reads both balances
before writing either, so the recipient write overwrites the sender write
and a successful self-transfer of 3 from a balance of 5 leaves the account
at 8, inflating the balance sum by the transferred amount while the total
supply stays put. -/
theorem transfer_self_breaks_conservation :
    execOk (SmartContract.Transfer c1Ctx "acct1" 3 c1State) = true ∧
    sumValues (commit c1State (SmartContract.Transfer c1Ctx "acct1" 3 c1State)).balances =
      sumValues c1State.balances + 3 ∧
    (commit c1State (SmartContract.Transfer c1Ctx "acct1" 3 c1State)).totalSupply =
      c1State.totalSupply := by decide

/-! ### Claim C5 -/

def c5State0 : WorldState := ⟨[("alice", 0), ("bob", 0)], none, [], [], none, []⟩

def c5CtxAlice : TxCtx := ⟨"alice", "Org2MSP", 0⟩

def c5CtxBob : TxCtx := ⟨"bob", "Org2MSP", 0⟩

def c5State1 : WorldState := commit c5State0 (SmartContract.OrderMint c5CtxBob 7 c5State0)

def c5State2 : WorldState := commit c5State1 (SmartContract.OrderBurn c5CtxAlice 5 c5State1)

/-- Claim C5 states that a successful OrderBurn stores an entry of kind Burn
for the caller regardless of whether the order table already existed, so
that an immediately following GetBurnOrder returns it.  The code violates
this: once the table exists (here created by a prior OrderMint from another
account), OrderBurn writes the caller's entry with kind "Mint", and the
caller's subsequent GetBurnOrder fails. -/
theorem orderBurn_existing_table_stores_mint_kind :
    execOk (SmartContract.OrderMint c5CtxBob 7 c5State0) = true ∧
    execOk (SmartContract.OrderBurn c5CtxAlice 5 c5State1) = true ∧
    c5State1.orders ≠ none ∧
    getKey "alice" (c5State2.orders.getD []) = some ⟨"Mint", 5, stateOrder⟩ ∧
    execOk (SmartContract.GetBurnOrder c5CtxAlice c5State2) = false := by decide

/-! ### Claim C7 -/

def c7Seller : TxCtx := ⟨"sel", "Org1MSP", 0⟩

def c7Bidder1 : TxCtx := ⟨"bidder1", "Org2MSP", 1⟩

def c7Bidder2 : TxCtx := ⟨"bidder2", "Org3MSP", 2⟩

def c7State0 : WorldState := ⟨[("bidder1", 100), ("bidder2", 100)], none, [], [], none, []⟩

def c7State1 : WorldState :=
  commit c7State0 (SmartContract.CreateAuction c7Seller "auction1" 5 10 60 c7State0)

def c7State2 : WorldState :=
  commit c7State1 (SmartContract.Bid_Rev c7Bidder1 "auction1" 60 c7State1)

def c7State3 : WorldState :=
  commit c7State2 (SmartContract.Bid_Rev c7Bidder2 "auction1" 80 c7State2)

/-- Claim C7 states that revealed bids are stored under keys incorporating
the bidder's identity, so two successful submissions by distinct bidders
yield two distinct entries.  The code violates this: the bid key is the
composite key built from the auction identifier alone, so after two
successful bids by distinct bidders on an open auction the revealed-bid map
holds a single entry, the second bid having overwritten the first. -/
theorem bidRev_overwrites_distinct_bidders :
    execOk (SmartContract.Bid_Rev c7Bidder1 "auction1" 60 c7State1) = true ∧
    execOk (SmartContract.Bid_Rev c7Bidder2 "auction1" 80 c7State2) = true ∧
    (getKey "auction1" c7State3.auctions).map Auction.RevealedBids =
      some [(createCompositeKey bidKeyType ["auction1"],
             ⟨"energy(KWh)", 80, "Org3MSP", "bidder2"⟩)] := by decide

/-! ### Claim C8 -/

def c8Auction : Auction :=
  ⟨"auction", "energy(KWh)", 10, 5, 0, 60, "sel", ["Org1MSP"], [], [], "", 50, "open"⟩

def c8State : WorldState := ⟨[], none, [], [], none, [("auction1", c8Auction)]⟩

def c8Intruder : TxCtx := ⟨"intruder", "Org2MSP", 0⟩

/-- Claim C8 states that the package-level CloseAuction variant closes any
existing open auction for any caller, without a seller check.  It is false:
on an open auction whose seller is "sel", a caller "intruder" is rejected
and the status stays open. -/
theorem closeAuction_nonseller_counterexample :
    getKey "auction1" c8State.auctions = some c8Auction ∧
    c8Auction.Status = "open" ∧
    c8Intruder.clientID ≠ c8Auction.Seller ∧
    execOk (CloseAuction c8Intruder "auction1" c8State) = false ∧
    (getKey "auction1" (commit c8State (CloseAuction c8Intruder "auction1" c8State)).auctions).map
      Auction.Status = some "open" := by decide

/-- Claim C8 amended: the package-level CloseAuction variant carries the same
seller check as the method.  On an existing open auction it performs the
open-to-closed transition when the caller is the seller, and fails, leaving
the record unchanged, for every other caller. -/
theorem closeAuction_internal_requires_seller
    (ctx : TxCtx) (auctionID : String) (s : WorldState) (a : Auction)
    (ha : getKey auctionID s.auctions = some a) (hopen : a.Status = "open") :
    (ctx.clientID = a.Seller →
      CloseAuction ctx auctionID s =
        .ok ({ s with auctions := setKey auctionID { a with Status := "closed" } s.auctions }, ())) ∧
    (ctx.clientID ≠ a.Seller →
      execOk (CloseAuction ctx auctionID s) = false ∧
      commit s (CloseAuction ctx auctionID s) = s) := by
  unfold CloseAuction
  rw [ha]
  dsimp only
  constructor
  · intro he
    rw [if_neg (not_ne_iff.mpr he.symm), if_neg (not_ne_iff.mpr hopen)]
  · intro hne
    rw [if_pos (fun hc => hne hc.symm)]
    exact ⟨rfl, rfl⟩

/-- Witness for the amended C8 theorem: the seller closes an open auction. -/
theorem closeAuction_internal_requires_seller_witness :
    CloseAuction ⟨"sel", "Org1MSP", 0⟩ "auction1" c8State =
      .ok ({ c8State with
              auctions := setKey "auction1" { c8Auction with Status := "closed" }
                c8State.auctions }, ()) :=
  (closeAuction_internal_requires_seller ⟨"sel", "Org1MSP", 0⟩ "auction1" c8State c8Auction
    rfl rfl).1 rfl

/-! ### Claim C9 -/

def c9State : WorldState := ⟨[("p", 10)], none, [(holdKeyOf "p", 5)], [], none, []⟩

def c9Ctx : TxCtx := ⟨"p", "Org2MSP", 0⟩

def c9State1 : WorldState := commit c9State (SmartContract.CreateHold c9Ctx 3 c9State)

def c9State2 : WorldState := commit c9State1 (SmartContract.ReturnHold c9Ctx "p" c9State1)

/-- Claim C9 states that CreateHold(a) followed by ReturnHold restores the
principal's active balance exactly whenever CreateHold succeeds.  It is
false when the principal already holds escrow: with balance 10 and an
existing hold of 5, CreateHold(3) then ReturnHold yields balance 15, not 10,
because ReturnHold refunds the entire hold. -/
theorem createHold_returnHold_prior_hold_counterexample :
    getKey "p" c9State.balances = some 10 ∧
    getKey (holdKeyOf "p") c9State.holds = some 5 ∧
    execOk (SmartContract.CreateHold c9Ctx 3 c9State) = true ∧
    execOk (SmartContract.ReturnHold c9Ctx "p" c9State1) = true ∧
    getKey "p" c9State2.balances = some 15 ∧ (15 : Int) ≠ 10 := by decide

/-- Claim C9 amended: when the principal's hold record is absent or zero
before the call, CreateHold(a) followed by ReturnHold restores the active
balance exactly and leaves the hold record at zero.  (With a pre-existing
hold of z the final balance is the original plus z, as the counterexample
shows, since ReturnHold refunds the whole hold.) -/
theorem createHold_returnHold_roundtrip
    (ctx ctx2 : TxCtx) (amount : Int) (s s1 s2 : WorldState) (b : Int)
    (hb : getKey ctx.clientID s.balances = some b)
    (hh : getKey (holdKeyOf ctx.clientID) s.holds = none ∨
          getKey (holdKeyOf ctx.clientID) s.holds = some 0)
    (h1 : SmartContract.CreateHold ctx amount s = .ok (s1, ()))
    (h2 : SmartContract.ReturnHold ctx2 ctx.clientID s1 = .ok (s2, ())) :
    getKey ctx.clientID s2.balances = some b ∧
    getKey (holdKeyOf ctx.clientID) s2.holds = some 0 := by
  obtain ⟨hpos, b', hb', hs1⟩ := createHold_ok h1
  rw [hb] at hb'
  obtain rfl : b = b' := Option.some.inj hb'
  have hholdval :
      (match getKey (holdKeyOf ctx.clientID) s.holds with
       | none => amount
       | some h0 => h0 + amount) = amount := by
    rcases hh with hh | hh
    · rw [hh]
    · rw [hh]; simp
  rw [hholdval] at hs1
  subst hs1
  unfold SmartContract.ReturnHold at h2
  dsimp only at h2
  rw [getKey_setKey_self] at h2
  dsimp only at h2
  rw [getKey_setKey_self] at h2
  dsimp only at h2
  simp only [Except.ok.injEq, Prod.mk.injEq] at h2
  obtain ⟨hs2, -⟩ := h2
  subst hs2
  dsimp only
  rw [getKey_setKey_self, getKey_setKey_self]
  constructor
  · congr 1
    omega
  · rfl

def c9FreshState : WorldState := ⟨[("q", 10)], none, [], [], none, []⟩

def c9FreshCtx : TxCtx := ⟨"q", "Org2MSP", 0⟩

def c9FreshState1 : WorldState :=
  commit c9FreshState (SmartContract.CreateHold c9FreshCtx 4 c9FreshState)

def c9FreshState2 : WorldState :=
  commit c9FreshState1 (SmartContract.ReturnHold c9FreshCtx "q" c9FreshState1)

/-- Witness for the amended C9 theorem: with no prior hold, balance 10 and
amount 4, the round trip restores balance 10 and hold 0. -/
theorem createHold_returnHold_roundtrip_witness :
    getKey "q" c9FreshState2.balances = some 10 ∧
    getKey (holdKeyOf "q") c9FreshState2.holds = some 0 :=
  createHold_returnHold_roundtrip c9FreshCtx c9FreshCtx 4 c9FreshState c9FreshState1
    c9FreshState2 10 rfl (Or.inl rfl) rfl rfl

/-! ### Claim C2 -/

/-- Claim C2: every successful ExecuteHold(holder, amount) by a caller
distinct from the holder requires a hold record of value h with
amount ≤ h and balance records for both parties; it credits the caller's
active balance with amount, credits the holder's with the leftover
h - amount, and afterwards the holder's hold record still stores its
pre-execution value h, neither cleared nor decremented. -/
theorem executeHold_credits_and_rewrites_hold
    (ctx : TxCtx) (holder : String) (amount : Int) (s s' : WorldState)
    (hne : ctx.clientID ≠ holder)
    (hok : ExecuteHold ctx holder amount s = .ok (s', ())) :
    ∃ h bc bh,
      getKey (holdKeyOf holder) s.holds = some h ∧ amount ≤ h ∧
      getKey ctx.clientID s.balances = some bc ∧
      getKey holder s.balances = some bh ∧
      getKey ctx.clientID s'.balances = some (bc + amount) ∧
      getKey holder s'.balances = some (bh + h - amount) ∧
      getKey (holdKeyOf holder) s'.holds = some h := by
  unfold ExecuteHold at hok
  by_cases hle : amount ≤ 0
  · rw [if_pos hle] at hok; exact absurd hok (by simp)
  · rw [if_neg hle] at hok
    cases hh : getKey (holdKeyOf holder) s.holds with
    | none => rw [hh] at hok; exact absurd hok (by simp)
    | some h =>
      rw [hh] at hok
      dsimp only at hok
      by_cases hlt : h < amount
      · rw [if_pos hlt] at hok; exact absurd hok (by simp)
      · rw [if_neg hlt] at hok
        cases hbc : getKey ctx.clientID s.balances with
        | none => rw [hbc] at hok; exact absurd hok (by simp)
        | some bc =>
          rw [hbc] at hok
          dsimp only at hok
          rw [getKey_setKey_ne (Ne.symm hne)] at hok
          cases hbh : getKey holder s.balances with
          | none => rw [hbh] at hok; exact absurd hok (by simp)
          | some bh =>
            rw [hbh] at hok
            dsimp only at hok
            simp only [Except.ok.injEq, Prod.mk.injEq] at hok
            obtain ⟨hs, -⟩ := hok
            refine ⟨h, bc, bh, rfl, by omega, rfl, rfl, ?_, ?_, ?_⟩ <;>
              rw [← hs] <;> dsimp only
            · rw [getKey_setKey_ne hne, getKey_setKey_self]
            · rw [getKey_setKey_self]
            · rw [getKey_setKey_self]

def c2State : WorldState :=
  ⟨[("caller", 10), ("holder", 20)], none, [(holdKeyOf "holder", 7)], [], none, []⟩

def c2Ctx : TxCtx := ⟨"caller", "Org1MSP", 0⟩

def c2StateAfter : WorldState :=
  commit c2State (ExecuteHold c2Ctx "holder" 4 c2State)

/-- Witness for the C2 theorem: with hold 7 and balances 10/20, executing 4
leaves the caller at 14, the holder at 23 and the hold still at 7. -/
theorem executeHold_credits_and_rewrites_hold_witness :
    ∃ h bc bh,
      getKey (holdKeyOf "holder") c2State.holds = some h ∧ (4 : Int) ≤ h ∧
      getKey "caller" c2State.balances = some bc ∧
      getKey "holder" c2State.balances = some bh ∧
      getKey "caller" c2StateAfter.balances = some (bc + 4) ∧
      getKey "holder" c2StateAfter.balances = some (bh + h - 4) ∧
      getKey (holdKeyOf "holder") c2StateAfter.holds = some h :=
  executeHold_credits_and_rewrites_hold c2Ctx "holder" 4 c2State c2StateAfter
    (by decide) rfl

/-! ### Claim C3 -/

/-- An insufficient balance makes the shared transfer primitive fail. -/
theorem transferHelper_insufficient {fromID toID : String} {value b : Int}
    {s : WorldState} (hb : getKey fromID s.balances = some b) (hlt : b < value) :
    ∃ e, transferHelper fromID toID value s = .error e := by
  unfold transferHelper
  by_cases hneg : value < 0
  · exact ⟨_, by rw [if_pos hneg]⟩
  · rw [if_neg hneg, hb]
    dsimp only
    rw [if_pos hlt]
    exact ⟨_, rfl⟩

/-- Claim C3: when the sender's balance record exists but holds less than
the requested amount, Transfer and TransferFrom fail and the committed
state is unchanged (in particular both balance records); and every
successful Transfer or TransferFrom leaves the sender's balance
non-negative. -/
theorem transfer_never_overdraws :
    (∀ (ctx : TxCtx) (recipient : String) (amount : Int) (s : WorldState) (b : Int),
      getKey ctx.clientID s.balances = some b → b < amount →
        execOk (SmartContract.Transfer ctx recipient amount s) = false ∧
        commit s (SmartContract.Transfer ctx recipient amount s) = s) ∧
    (∀ (ctx : TxCtx) (fromID toID : String) (value : Int) (s : WorldState) (b : Int),
      getKey fromID s.balances = some b → b < value →
        execOk (SmartContract.TransferFrom ctx fromID toID value s) = false ∧
        commit s (SmartContract.TransferFrom ctx fromID toID value s) = s) ∧
    (∀ (ctx : TxCtx) (recipient : String) (amount : Int) (s s' : WorldState),
      SmartContract.Transfer ctx recipient amount s = .ok (s', ()) →
        ∃ x, getKey ctx.clientID s'.balances = some x ∧ 0 ≤ x) ∧
    (∀ (ctx : TxCtx) (fromID toID : String) (value : Int) (s s' : WorldState),
      SmartContract.TransferFrom ctx fromID toID value s = .ok (s', ()) →
        ∃ x, getKey fromID s'.balances = some x ∧ 0 ≤ x) := by
  have hsucc :
      ∀ (fromID toID : String) (value : Int) (s s1 : WorldState) (u : Unit),
        transferHelper fromID toID value s = .ok (s1, u) →
          ∃ x, getKey fromID s1.balances = some x ∧ 0 ≤ x := by
    intro fromID toID value s s1 u hth
    obtain ⟨hv, b, hb, hle2, hs1⟩ := transferHelper_ok hth
    subst hs1
    dsimp only
    by_cases hft : fromID = toID
    · subst hft
      rw [getKey_setKey_self]
      refine ⟨_, rfl, ?_⟩
      rw [hb]
      simp only [Option.getD_some]
      omega
    · rw [getKey_setKey_ne hft, getKey_setKey_self]
      exact ⟨_, rfl, by omega⟩
  refine ⟨?_, ?_, ?_, ?_⟩
  · intro ctx recipient amount s b hb hlt
    obtain ⟨e, he⟩ := transferHelper_insufficient hb hlt
    unfold SmartContract.Transfer
    rw [he]
    exact ⟨rfl, rfl⟩
  · intro ctx fromID toID value s b hb hlt
    unfold SmartContract.TransferFrom
    dsimp only
    by_cases hal : (getKey (allowanceKeyOf fromID ctx.clientID) s.allowances).getD 0 < value
    · rw [if_pos hal]
      exact ⟨rfl, rfl⟩
    · rw [if_neg hal]
      obtain ⟨e, he⟩ := transferHelper_insufficient hb hlt
      rw [he]
      exact ⟨rfl, rfl⟩
  · intro ctx recipient amount s s' hok
    unfold SmartContract.Transfer at hok
    cases hth : transferHelper ctx.clientID recipient amount s with
    | error e => rw [hth] at hok; exact absurd hok (by simp)
    | ok p =>
      rw [hth] at hok
      obtain ⟨s1, u⟩ := p
      dsimp only at hok
      simp only [Except.ok.injEq, Prod.mk.injEq] at hok
      obtain ⟨hs', -⟩ := hok
      subst hs'
      exact hsucc _ _ _ _ _ _ hth
  · intro ctx fromID toID value s s' hok
    unfold SmartContract.TransferFrom at hok
    dsimp only at hok
    by_cases hal : (getKey (allowanceKeyOf fromID ctx.clientID) s.allowances).getD 0 < value
    · rw [if_pos hal] at hok; exact absurd hok (by simp)
    · rw [if_neg hal] at hok
      cases hth : transferHelper fromID toID value s with
      | error e => rw [hth] at hok; exact absurd hok (by simp)
      | ok p =>
        rw [hth] at hok
        obtain ⟨s1, u⟩ := p
        dsimp only at hok
        simp only [Except.ok.injEq, Prod.mk.injEq] at hok
        obtain ⟨hs', -⟩ := hok
        obtain ⟨x, hx, hx0⟩ := hsucc _ _ _ _ _ _ hth
        refine ⟨x, ?_, hx0⟩
        rw [← hs']
        exact hx

def c3State : WorldState := ⟨[("a", 3), ("r", 0)], none, [], [], none, []⟩

def c3Ctx : TxCtx := ⟨"a", "Org1MSP", 0⟩

def c3StateAfter : WorldState :=
  commit c3State (SmartContract.Transfer c3Ctx "r" 2 c3State)

/-- Witness for the C3 theorem: a transfer of 5 from a balance of 3 fails
and changes nothing, and a successful transfer of 2 leaves the sender
non-negative. -/
theorem transfer_never_overdraws_witness :
    (execOk (SmartContract.Transfer c3Ctx "r" 5 c3State) = false ∧
      commit c3State (SmartContract.Transfer c3Ctx "r" 5 c3State) = c3State) ∧
    (∃ x, getKey "a" c3StateAfter.balances = some x ∧ 0 ≤ x) :=
  ⟨transfer_never_overdraws.1 c3Ctx "r" 5 c3State 3 rfl (by decide),
   transfer_never_overdraws.2.2.1 c3Ctx "r" 2 c3State c3StateAfter rfl⟩

/-! ### Claim C10 -/

/-- Claim C10: GetMintOrders and GetBurnOrders never modify stored state;
the committed state equals the pre-state whether the call succeeds or
fails, and on success the returned map is the stored order table filtered
to entries of the matching kind in state Ordered. -/
theorem getOrders_read_only :
    (∀ (ctx : TxCtx) (s : WorldState),
      commit s (SmartContract.GetMintOrders ctx s) = s) ∧
    (∀ (ctx : TxCtx) (s : WorldState),
      commit s (SmartContract.GetBurnOrders ctx s) = s) ∧
    (∀ (ctx : TxCtx) (s : WorldState) (r : WorldState × List (String × St_am)),
      SmartContract.GetMintOrders ctx s = .ok r →
        r.1 = s ∧ ∃ tbl, s.orders = some tbl ∧
          r.2 = tbl.filter (fun kv => kv.2.MintBurn == "Mint" && kv.2.State == stateOrder)) ∧
    (∀ (ctx : TxCtx) (s : WorldState) (r : WorldState × List (String × St_am)),
      SmartContract.GetBurnOrders ctx s = .ok r →
        r.1 = s ∧ ∃ tbl, s.orders = some tbl ∧
          r.2 = tbl.filter (fun kv => kv.2.MintBurn == "Burn" && kv.2.State == stateOrder)) := by
  have hmint : ∀ (ctx : TxCtx) (s : WorldState) (r : WorldState × List (String × St_am)),
      SmartContract.GetMintOrders ctx s = .ok r →
        r.1 = s ∧ ∃ tbl, s.orders = some tbl ∧
          r.2 = tbl.filter (fun kv => kv.2.MintBurn == "Mint" && kv.2.State == stateOrder) := by
    intro ctx s r hok
    unfold SmartContract.GetMintOrders at hok
    by_cases hm : ctx.mspID ≠ "Org1MSP"
    · rw [if_pos hm] at hok; exact absurd hok (by simp)
    · rw [if_neg hm] at hok
      cases ho : s.orders with
      | none => rw [ho] at hok; exact absurd hok (by simp)
      | some tbl =>
        rw [ho] at hok
        dsimp only at hok
        simp only [Except.ok.injEq] at hok
        subst hok
        exact ⟨rfl, tbl, rfl, rfl⟩
  have hburn : ∀ (ctx : TxCtx) (s : WorldState) (r : WorldState × List (String × St_am)),
      SmartContract.GetBurnOrders ctx s = .ok r →
        r.1 = s ∧ ∃ tbl, s.orders = some tbl ∧
          r.2 = tbl.filter (fun kv => kv.2.MintBurn == "Burn" && kv.2.State == stateOrder) := by
    intro ctx s r hok
    unfold SmartContract.GetBurnOrders at hok
    by_cases hm : ctx.mspID ≠ "Org1MSP"
    · rw [if_pos hm] at hok; exact absurd hok (by simp)
    · rw [if_neg hm] at hok
      cases ho : s.orders with
      | none => rw [ho] at hok; exact absurd hok (by simp)
      | some tbl =>
        rw [ho] at hok
        dsimp only at hok
        simp only [Except.ok.injEq] at hok
        subst hok
        exact ⟨rfl, tbl, rfl, rfl⟩
  refine ⟨?_, ?_, hmint, hburn⟩
  · intro ctx s
    cases hres : SmartContract.GetMintOrders ctx s with
    | error e => rfl
    | ok r =>
      have := (hmint ctx s r hres).1
      unfold commit
      rw [← this]
  · intro ctx s
    cases hres : SmartContract.GetBurnOrders ctx s with
    | error e => rfl
    | ok r =>
      have := (hburn ctx s r hres).1
      unfold commit
      rw [← this]

def c10Ctx : TxCtx := ⟨"admin", "Org1MSP", 0⟩

def c10State : WorldState :=
  ⟨[], none, [], [],
   some [("a", ⟨"Mint", 5, stateOrder⟩), ("b", ⟨"Burn", 6, stateOrder⟩),
         ("c", ⟨"Mint", 7, stateApproved⟩)], []⟩

/-- Witness for the C10 theorem: a successful GetMintOrders returns the
Ordered Mint entries only and the state component untouched. -/
theorem getOrders_read_only_witness :
    (c10State, [("a", (⟨"Mint", 5, stateOrder⟩ : St_am))]).1 = c10State ∧
    ∃ tbl, c10State.orders = some tbl ∧
      [("a", (⟨"Mint", 5, stateOrder⟩ : St_am))] =
        tbl.filter (fun kv => kv.2.MintBurn == "Mint" && kv.2.State == stateOrder) :=
  getOrders_read_only.2.2.1 c10Ctx c10State
    (c10State, [("a", ⟨"Mint", 5, stateOrder⟩)]) rfl

/-! ### Claim C4 -/

/-- Claim C4: ExecuteMint(amount) succeeds only when the caller's own order
entry exists with state Approved, kind Mint and exactly that amount; on
success the caller's balance and the total supply grow by the amount, the
entry is deleted, and a subsequent GetMintOrder fails; on any mismatch of
the three conditions the call fails with the order table unchanged.  The
same holds symmetrically for ExecuteBurn with kind Burn, with balance and
total supply decreasing. -/
theorem executeMint_executeBurn_gated :
    (∀ (ctx : TxCtx) (amount : Int) (s s' : WorldState),
      SmartContract.ExecuteMint ctx amount s = .ok (s', ()) →
        ∃ tbl e b, s.orders = some tbl ∧ getKey ctx.clientID tbl = some e ∧
          e.State = stateApproved ∧ e.MintBurn = "Mint" ∧ e.Amount = amount ∧
          getKey ctx.clientID s.balances = some b ∧
          getKey ctx.clientID s'.balances = some (b + amount) ∧
          s'.totalSupply = some (s.totalSupply.getD 0 + amount) ∧
          s'.orders = some (delKey ctx.clientID tbl) ∧
          execOk (SmartContract.GetMintOrder ctx s') = false) ∧
    (∀ (ctx : TxCtx) (amount : Int) (s : WorldState),
      (¬ ∃ tbl e, s.orders = some tbl ∧ getKey ctx.clientID tbl = some e ∧
          e.State = stateApproved ∧ e.MintBurn = "Mint" ∧ e.Amount = amount) →
        execOk (SmartContract.ExecuteMint ctx amount s) = false ∧
        (commit s (SmartContract.ExecuteMint ctx amount s)).orders = s.orders) ∧
    (∀ (ctx : TxCtx) (amount : Int) (s s' : WorldState),
      SmartContract.ExecuteBurn ctx amount s = .ok (s', ()) →
        ∃ tbl e b t, s.orders = some tbl ∧ getKey ctx.clientID tbl = some e ∧
          e.State = stateApproved ∧ e.MintBurn = "Burn" ∧ e.Amount = amount ∧
          getKey ctx.clientID s.balances = some b ∧ s.totalSupply = some t ∧
          getKey ctx.clientID s'.balances = some (b - amount) ∧
          s'.totalSupply = some (t - amount) ∧
          s'.orders = some (delKey ctx.clientID tbl) ∧
          execOk (SmartContract.GetBurnOrder ctx s') = false) ∧
    (∀ (ctx : TxCtx) (amount : Int) (s : WorldState),
      (¬ ∃ tbl e, s.orders = some tbl ∧ getKey ctx.clientID tbl = some e ∧
          e.State = stateApproved ∧ e.MintBurn = "Burn" ∧ e.Amount = amount) →
        execOk (SmartContract.ExecuteBurn ctx amount s) = false ∧
        (commit s (SmartContract.ExecuteBurn ctx amount s)).orders = s.orders) := by
  refine ⟨?_, ?_, ?_, ?_⟩
  · -- ExecuteMint, success direction
    intro ctx amount s s' hok
    unfold SmartContract.ExecuteMint at hok
    cases hcab : SmartContract.ClientAccountBalance ctx s with
    | error e => rw [hcab] at hok; exact absurd hok (by simp)
    | ok p =>
      rw [hcab] at hok
      dsimp only at hok
      cases ho : s.orders with
      | none => rw [ho] at hok; exact absurd hok (by simp)
      | some tbl =>
        rw [ho] at hok
        dsimp only at hok
        by_cases hcond : ((getKey ctx.clientID tbl).getD St_am.zero).State ≠ stateApproved ∨
            ((getKey ctx.clientID tbl).getD St_am.zero).Amount ≠ amount ∨
            ((getKey ctx.clientID tbl).getD St_am.zero).MintBurn ≠ "Mint"
        · rw [if_pos hcond] at hok; exact absurd hok (by simp)
        · rw [if_neg hcond] at hok
          push_neg at hcond
          obtain ⟨hState, hAmt, hKind⟩ := hcond
          cases hm : Mint ctx amount s with
          | error e => rw [hm] at hok; exact absurd hok (by simp)
          | ok q =>
            rw [hm] at hok
            obtain ⟨s1, u⟩ := q
            dsimp only at hok
            simp only [Except.ok.injEq, Prod.mk.injEq] at hok
            obtain ⟨hs', -⟩ := hok
            obtain ⟨hpos, hs1⟩ := mint_ok hm
            obtain ⟨-, hpb⟩ := clientAccountBalance_ok hcab
            subst hs1
            subst hs'
            cases hg : getKey ctx.clientID tbl with
            | none =>
              rw [hg] at hState
              simp [St_am.zero, stateApproved] at hState
            | some e =>
              rw [hg] at hState hAmt hKind
              simp only [Option.getD_some] at hState hAmt hKind
              refine ⟨tbl, e, p.2, rfl, hg, hState, hKind, hAmt, hpb, ?_, rfl, rfl, ?_⟩
              · dsimp only
                rw [getKey_setKey_self, hpb]
                simp only [Option.getD_some]
              · unfold SmartContract.GetMintOrder SmartContract.ClientAccountBalance
                dsimp only
                rw [getKey_setKey_self]
                dsimp only
                rw [getKey_delKey_self]
                simp [St_am.zero, execOk]
  · -- ExecuteMint, mismatch direction
    intro ctx amount s hnot
    unfold SmartContract.ExecuteMint
    cases hcab : SmartContract.ClientAccountBalance ctx s with
    | error e => exact ⟨rfl, rfl⟩
    | ok p =>
      dsimp only
      cases ho : s.orders with
      | none => exact ⟨rfl, ho⟩
      | some tbl =>
        dsimp only
        by_cases hcond : ((getKey ctx.clientID tbl).getD St_am.zero).State ≠ stateApproved ∨
            ((getKey ctx.clientID tbl).getD St_am.zero).Amount ≠ amount ∨
            ((getKey ctx.clientID tbl).getD St_am.zero).MintBurn ≠ "Mint"
        · rw [if_pos hcond]; exact ⟨rfl, ho⟩
        · exfalso
          push_neg at hcond
          obtain ⟨hState, hAmt, hKind⟩ := hcond
          apply hnot
          cases hg : getKey ctx.clientID tbl with
          | none =>
            rw [hg] at hState
            simp [St_am.zero, stateApproved] at hState
          | some e =>
            rw [hg] at hState hAmt hKind
            simp only [Option.getD_some] at hState hAmt hKind
            exact ⟨tbl, e, ho, hg, hState, hKind, hAmt⟩
  · -- ExecuteBurn, success direction
    intro ctx amount s s' hok
    unfold SmartContract.ExecuteBurn at hok
    cases hcab : SmartContract.ClientAccountBalance ctx s with
    | error e => rw [hcab] at hok; exact absurd hok (by simp)
    | ok p =>
      rw [hcab] at hok
      dsimp only at hok
      cases ho : s.orders with
      | none => rw [ho] at hok; exact absurd hok (by simp)
      | some tbl =>
        rw [ho] at hok
        dsimp only at hok
        by_cases hcond : ((getKey ctx.clientID tbl).getD St_am.zero).State ≠ stateApproved ∨
            ((getKey ctx.clientID tbl).getD St_am.zero).Amount ≠ amount ∨
            ((getKey ctx.clientID tbl).getD St_am.zero).MintBurn ≠ "Burn"
        · rw [if_pos hcond] at hok; exact absurd hok (by simp)
        · rw [if_neg hcond] at hok
          push_neg at hcond
          obtain ⟨hState, hAmt, hKind⟩ := hcond
          cases hm : Burn ctx amount s with
          | error e => rw [hm] at hok; exact absurd hok (by simp)
          | ok q =>
            rw [hm] at hok
            obtain ⟨s1, u⟩ := q
            dsimp only at hok
            simp only [Except.ok.injEq, Prod.mk.injEq] at hok
            obtain ⟨hs', -⟩ := hok
            obtain ⟨-, hpos, b, hbal, t, hts, hs1⟩ := burn_ok hm
            obtain ⟨-, hpb⟩ := clientAccountBalance_ok hcab
            subst hs1
            subst hs'
            cases hg : getKey ctx.clientID tbl with
            | none =>
              rw [hg] at hState
              simp [St_am.zero, stateApproved] at hState
            | some e =>
              rw [hg] at hState hAmt hKind
              simp only [Option.getD_some] at hState hAmt hKind
              refine ⟨tbl, e, b, t, rfl, hg, hState, hKind, hAmt, hbal, hts, ?_, rfl, rfl, ?_⟩
              · dsimp only
                rw [getKey_setKey_self]
              · unfold SmartContract.GetBurnOrder SmartContract.ClientAccountBalance
                dsimp only
                rw [getKey_setKey_self]
                dsimp only
                rw [getKey_delKey_self]
                simp [St_am.zero, execOk]
  · -- ExecuteBurn, mismatch direction
    intro ctx amount s hnot
    unfold SmartContract.ExecuteBurn
    cases hcab : SmartContract.ClientAccountBalance ctx s with
    | error e => exact ⟨rfl, rfl⟩
    | ok p =>
      dsimp only
      cases ho : s.orders with
      | none => exact ⟨rfl, ho⟩
      | some tbl =>
        dsimp only
        by_cases hcond : ((getKey ctx.clientID tbl).getD St_am.zero).State ≠ stateApproved ∨
            ((getKey ctx.clientID tbl).getD St_am.zero).Amount ≠ amount ∨
            ((getKey ctx.clientID tbl).getD St_am.zero).MintBurn ≠ "Burn"
        · rw [if_pos hcond]; exact ⟨rfl, ho⟩
        · exfalso
          push_neg at hcond
          obtain ⟨hState, hAmt, hKind⟩ := hcond
          apply hnot
          cases hg : getKey ctx.clientID tbl with
          | none =>
            rw [hg] at hState
            simp [St_am.zero, stateApproved] at hState
          | some e =>
            rw [hg] at hState hAmt hKind
            simp only [Option.getD_some] at hState hAmt hKind
            exact ⟨tbl, e, ho, hg, hState, hKind, hAmt⟩

def c4CtxM : TxCtx := ⟨"m", "Org1MSP", 0⟩

def c4StateM : WorldState :=
  ⟨[("m", 9)], some 9, [], [], some [("m", ⟨"Mint", 5, stateApproved⟩)], []⟩

def c4StateM2 : WorldState := commit c4StateM (SmartContract.ExecuteMint c4CtxM 5 c4StateM)

def c4StateB : WorldState :=
  ⟨[("m", 9)], some 9, [], [], some [("m", ⟨"Burn", 4, stateApproved⟩)], []⟩

def c4StateB2 : WorldState := commit c4StateB (SmartContract.ExecuteBurn c4CtxM 4 c4StateB)

/-- Witness for the C4 theorem: an Approved Mint order for 5 executes,
raising balance and supply from 9 to 14 and deleting the entry; an Approved
Burn order for 4 executes, lowering both to 5 and deleting the entry. -/
theorem executeMint_executeBurn_gated_witness :
    (∃ tbl e b, c4StateM.orders = some tbl ∧ getKey "m" tbl = some e ∧
      e.State = stateApproved ∧ e.MintBurn = "Mint" ∧ e.Amount = 5 ∧
      getKey "m" c4StateM.balances = some b ∧
      getKey "m" c4StateM2.balances = some (b + 5) ∧
      c4StateM2.totalSupply = some (c4StateM.totalSupply.getD 0 + 5) ∧
      c4StateM2.orders = some (delKey "m" tbl) ∧
      execOk (SmartContract.GetMintOrder c4CtxM c4StateM2) = false) ∧
    (∃ tbl e b t, c4StateB.orders = some tbl ∧ getKey "m" tbl = some e ∧
      e.State = stateApproved ∧ e.MintBurn = "Burn" ∧ e.Amount = 4 ∧
      getKey "m" c4StateB.balances = some b ∧ c4StateB.totalSupply = some t ∧
      getKey "m" c4StateB2.balances = some (b - 4) ∧
      c4StateB2.totalSupply = some (t - 4) ∧
      c4StateB2.orders = some (delKey "m" tbl) ∧
      execOk (SmartContract.GetBurnOrder c4CtxM c4StateB2) = false) :=
  ⟨executeMint_executeBurn_gated.1 c4CtxM 5 c4StateM c4StateM2 rfl,
   executeMint_executeBurn_gated.2.2.1 c4CtxM 4 c4StateB c4StateB2 rfl⟩

/-! ### Claim C6 -/

/-- Behaviour of the winner-selection loop over any iteration order: the
running price never decreases, bounds every bid price, and either nothing
beat the initial price (result unchanged) or the final price strictly
exceeds the initial one and the winner is the first bid in iteration order
carrying the final price. -/
theorem selectWinner_spec (bids : List (String × FullBid)) :
    ∀ (w : String) (p : Int),
      p ≤ (selectWinner w p bids).2 ∧
      (∀ kb ∈ bids, kb.2.Price ≤ (selectWinner w p bids).2) ∧
      (selectWinner w p bids = (w, p) ∨
        (p < (selectWinner w p bids).2 ∧
          ∃ kb, bids.find? (fun x => x.2.Price == (selectWinner w p bids).2) = some kb ∧
            (selectWinner w p bids).1 = kb.2.Bidder)) := by
  induction bids with
  | nil =>
    intro w p
    exact ⟨le_refl _, by simp, Or.inl rfl⟩
  | cons hd rest ih =>
    intro w p
    obtain ⟨k, bid⟩ := hd
    by_cases hgt : p < bid.Price
    · have H := ih bid.Bidder bid.Price
      have hsw : selectWinner w p ((k, bid) :: rest) = selectWinner bid.Bidder bid.Price rest := by
        simp [selectWinner, hgt]
      rw [hsw]
      refine ⟨le_of_lt (lt_of_lt_of_le hgt H.1), ?_, ?_⟩
      · intro kb hkb
        rcases List.mem_cons.mp hkb with h | h
        · subst h; exact H.1
        · exact H.2.1 kb h
      · rcases H.2.2 with heq | ⟨hlt, kb, hfind, hb⟩
        · rw [heq]
          refine Or.inr ⟨hgt, (k, bid), ?_, rfl⟩
          apply List.find?_cons_of_pos
          simp
        · refine Or.inr ⟨lt_trans hgt hlt, kb, ?_, hb⟩
          rw [List.find?_cons_of_neg]
          · exact hfind
          · simp only [beq_iff_eq]
            omega
    · have hble : bid.Price ≤ p := le_of_not_lt hgt
      have H := ih w p
      have hsw : selectWinner w p ((k, bid) :: rest) = selectWinner w p rest := by
        simp [selectWinner, hgt]
      rw [hsw]
      refine ⟨H.1, ?_, ?_⟩
      · intro kb hkb
        rcases List.mem_cons.mp hkb with h | h
        · subst h; exact le_trans hble H.1
        · exact H.2.1 kb h
      · rcases H.2.2 with heq | ⟨hlt, kb, hfind, hb⟩
        · exact Or.inl heq
        · refine Or.inr ⟨hlt, kb, ?_, hb⟩
          rw [List.find?_cons_of_neg]
          · exact hfind
          · simp only [beq_iff_eq]
            omega

/-- Claim C6: a successful EndAuction implies the caller was the seller,
the auction was closed with at least one revealed bid, and the record is
gone from the store afterwards; the winner/price pair persisted in the
terminal record is the result of the selection loop, and starting from an
empty winner and the reserve amount × pricePerKWh it selects the maximum
revealed price (attained, an upper bound, and won by the earliest bid at
that price) whenever some bid strictly exceeds the reserve, and keeps the
empty winner and reserve price otherwise. -/
theorem endAuction_selects_max_revealed_bid
    (queryAllBids : QueryAllBids) (ctx : TxCtx) (auctionID : String)
    (s s' : WorldState) (a : Auction)
    (ha : getKey auctionID s.auctions = some a)
    (hres : a.Price = a.Amount * a.PricePerKWh)
    (hw : a.Winner = "")
    (hok : SmartContract.EndAuction queryAllBids ctx auctionID s = .ok (s', ())) :
    ctx.clientID = a.Seller ∧ a.Status = "closed" ∧ a.RevealedBids ≠ [] ∧
    getKey auctionID s'.auctions = none ∧
    ((∃ kb ∈ a.RevealedBids, a.Amount * a.PricePerKWh < kb.2.Price) →
      (∃ kb ∈ a.RevealedBids,
        kb.2.Price = (selectWinner a.Winner a.Price a.RevealedBids).2) ∧
      (∀ kb ∈ a.RevealedBids,
        kb.2.Price ≤ (selectWinner a.Winner a.Price a.RevealedBids).2) ∧
      (∃ kb, a.RevealedBids.find?
            (fun x => x.2.Price == (selectWinner a.Winner a.Price a.RevealedBids).2) =
          some kb ∧
        (selectWinner a.Winner a.Price a.RevealedBids).1 = kb.2.Bidder)) ∧
    ((∀ kb ∈ a.RevealedBids, kb.2.Price ≤ a.Amount * a.PricePerKWh) →
      selectWinner a.Winner a.Price a.RevealedBids = ("", a.Amount * a.PricePerKWh)) := by
  unfold SmartContract.EndAuction at hok
  rw [ha] at hok
  dsimp only at hok
  by_cases h1 : a.Seller ≠ ctx.clientID
  · rw [if_pos h1] at hok; exact absurd hok (by simp)
  · rw [if_neg h1] at hok
    push_neg at h1
    by_cases h2 : a.Status ≠ "closed"
    · rw [if_pos h2] at hok; exact absurd hok (by simp)
    · rw [if_neg h2] at hok
      push_neg at h2
      by_cases h3 : a.RevealedBids.length = 0
      · rw [if_pos h3] at hok; exact absurd hok (by simp)
      · rw [if_neg h3] at hok
        have H := selectWinner_spec a.RevealedBids a.Winner a.Price
        refine ⟨h1.symm, h2, fun hnil => h3 (by rw [hnil]; rfl), ?_, ?_, ?_⟩
        · by_cases h4 : queryAllBids (selectWinner a.Winner a.Price a.RevealedBids).2
              a.RevealedBids a.PrivateBids = true
          · rw [if_pos h4] at hok
            simp only [Except.ok.injEq, Prod.mk.injEq] at hok
            obtain ⟨hs', -⟩ := hok
            rw [← hs']
            dsimp only
            rw [getKey_delKey_self]
          · rw [if_neg h4] at hok
            exact absurd hok (by simp)
        · rintro ⟨kb0, hkb0, hgt0⟩
          rcases H.2.2 with heq | ⟨hlt, kb, hfind, hb⟩
          · exfalso
            have hub := H.2.1 kb0 hkb0
            rw [heq] at hub
            dsimp only at hub
            omega
          · have hmem := List.mem_of_find?_eq_some hfind
            have hpred := List.find?_some hfind
            simp only [beq_iff_eq] at hpred
            exact ⟨⟨kb, hmem, hpred⟩, H.2.1, kb, hfind, hb⟩
        · intro hall
          rcases H.2.2 with heq | ⟨hlt, kb, hfind, hb⟩
          · rw [heq, hw, hres]
          · exfalso
            have hmem := List.mem_of_find?_eq_some hfind
            have hpred := List.find?_some hfind
            simp only [beq_iff_eq] at hpred
            have := hall kb hmem
            omega

def c6Bids : List (String × FullBid) :=
  [("k1", ⟨"energy(KWh)", 60, "Org2MSP", "b1"⟩), ("k2", ⟨"energy(KWh)", 80, "Org3MSP", "b2"⟩)]

def c6Auction : Auction :=
  ⟨"auction", "energy(KWh)", 10, 5, 0, 60, "sel", ["Org1MSP"], [], c6Bids, "", 50, "closed"⟩

def c6State : WorldState := ⟨[], none, [], [], none, [("auction1", c6Auction)]⟩

def qabTrue : QueryAllBids := fun _ _ _ => true

def c6Ctx : TxCtx := ⟨"sel", "Org1MSP", 0⟩

def c6StateAfter : WorldState :=
  commit c6State (SmartContract.EndAuction qabTrue c6Ctx "auction1" c6State)

/-- Witness for the C6 theorem: on a closed auction with reserve 50 and
revealed bids 60 and 80, the seller's EndAuction succeeds, the record is
deleted, and the selection yields the maximal price 80, won by its earliest
bid. -/
theorem endAuction_selects_max_revealed_bid_witness :
    getKey "auction1" c6StateAfter.auctions = none ∧
    (∃ kb ∈ c6Bids, kb.2.Price = (selectWinner "" 50 c6Bids).2) ∧
    (∀ kb ∈ c6Bids, kb.2.Price ≤ (selectWinner "" 50 c6Bids).2) ∧
    (∃ kb, c6Bids.find? (fun x => x.2.Price == (selectWinner "" 50 c6Bids).2) = some kb ∧
      (selectWinner "" 50 c6Bids).1 = kb.2.Bidder) := by
  have h := endAuction_selects_max_revealed_bid qabTrue c6Ctx "auction1" c6State
    c6StateAfter c6Auction rfl (by decide) rfl rfl
  have hx := h.2.2.2.2.1
    ⟨("k2", ⟨"energy(KWh)", 80, "Org3MSP", "b2"⟩), by decide, by decide⟩
  exact ⟨h.2.2.2.1, hx.1, hx.2.1, hx.2.2⟩
